import Mathlib

/-!
Verification of the GPG-indicator protocol core against its specification.

The repository's `sign`, `parseGpgKey`, `isKeyUnlocked`, `getKeyInfo` and
`KeyStatusManager.unlockCurrentKey` are translated from the TypeScript
sources.  The `assuan` session/codec module is imported by the sources but
its file is not part of the staged tree; those definitions are modelled
from the specification (sections 4.2 and 4.3) and are marked as such.
Bytes are represented as natural numbers (`List Nat`), wire text as
`List Char`, and fallible operations return `Option`/`Except`.
-/

namespace GpgIndicator

/-! ## Codec: binary-safe percent escaping (modelled from the spec) -/

/-- Modelled from the spec: hex digits accepted inside a `%XX` escape
(`0-9`, `A-F`; lowercase tolerated). -/
def isHexDigitByte (n : Nat) : Bool :=
  (decide (48 ≤ n) && decide (n ≤ 57)) ||
  (decide (65 ≤ n) && decide (n ≤ 70)) ||
  (decide (97 ≤ n) && decide (n ≤ 102))

/-- Modelled from the spec: numeric value of one hex digit byte. -/
def hexDigitVal (n : Nat) : Nat :=
  if n ≤ 57 then n - 48 else if n ≤ 70 then n - 55 else n - 87

/-- Modelled from the spec: the escaping of one payload byte.  The bytes
`%` (37), CR (13), LF (10) and NUL (0) are replaced by `%XX` with
uppercase hex; every other byte passes through unchanged. -/
def escapeByte (b : Nat) : List Nat :=
  if b = 37 then [37, 50, 53]
  else if b = 13 then [37, 48, 68]
  else if b = 10 then [37, 48, 65]
  else if b = 0 then [37, 48, 48]
  else [b]

/-- Modelled from the spec: escaping of a whole payload, byte by byte. -/
def escapeData (bs : List Nat) : List Nat :=
  (bs.map escapeByte).flatten

/-- Modelled from the spec: inverse unescaping of one data line's payload.
A `%` must be followed by two hex digits; a malformed escape fails (the
caller surfaces this as `ParseError`) instead of passing bytes through. -/
def unescapeData : List Nat → Option (List Nat)
  | [] => some []
  | c :: t =>
    if c = 37 then
      match t with
      | h :: l :: t2 =>
        if isHexDigitByte h && isHexDigitByte l then
          (unescapeData t2).map (fun r => (16 * hexDigitVal h + hexDigitVal l) :: r)
        else none
      | _ => none
    else (unescapeData t).map (fun r => c :: r)

/-- Modelled from the spec: greedy split of the per-byte escape units into
one line's worth, bounded by the remaining capacity in encoded bytes.
Returns the units of the line and the units left over. -/
def takeLineUnits (cap : Nat) : List (List Nat) → (List (List Nat) × List (List Nat))
  | [] => ([], [])
  | u :: us =>
    if u.length ≤ cap then
      let p := takeLineUnits (cap - u.length) us
      (u :: p.1, p.2)
    else ([], u :: us)

theorem takeLineUnits_append (cap : Nat) :
    ∀ us : List (List Nat), (takeLineUnits cap us).1 ++ (takeLineUnits cap us).2 = us := by
  intro us
  induction us generalizing cap with
  | nil => simp [takeLineUnits]
  | cons u us ih =>
    simp only [takeLineUnits]
    by_cases h : u.length ≤ cap
    · simp [h, ih]
    · simp [h]

theorem takeLineUnits_snd_length (cap : Nat) (us : List (List Nat)) :
    (takeLineUnits cap us).2.length ≤ us.length := by
  induction us generalizing cap with
  | nil => simp [takeLineUnits]
  | cons u us ih =>
    simp only [takeLineUnits]
    by_cases h : u.length ≤ cap
    · simpa [h] using Nat.le_succ_of_le (ih (cap - u.length))
    · simp [h]

/-- Modelled from the spec: split a list of escape units into lines, each
line's payload at most `cap` encoded bytes (the first unit of a line is
always taken, so splitting never cuts an escape sequence in half). -/
def chunkUnits (cap : Nat) : List (List Nat) → List (List (List Nat))
  | [] => []
  | u :: us =>
    let p := takeLineUnits (cap - u.length) us
    (u :: p.1) :: chunkUnits cap p.2
  termination_by us => us.length
  decreasing_by
    exact Nat.lt_succ_of_le (takeLineUnits_snd_length _ _)

/-- Modelled from the spec: encode a payload as one or more `D ` lines
(`D` = 68, space = 32), percent-escaped, each line capped at 1000 bytes
including the two-byte prefix (998 bytes of payload). -/
def encodeData (bs : List Nat) : List (List Nat) :=
  (chunkUnits 998 (bs.map escapeByte)).map (fun g => 68 :: 32 :: g.flatten)

/-- Modelled from the spec: decode one `D ` line back to its payload
bytes; fails on a missing prefix or a malformed escape. -/
def decodeDataLine (line : List Nat) : Option (List Nat) :=
  match line with
  | 68 :: 32 :: payload => unescapeData payload
  | _ => none

/-- Modelled from the spec: decode a sequence of `D ` lines, concatenating
the payloads in order; fails if any line fails. -/
def decodeDataLines : List (List Nat) → Option (List Nat)
  | [] => some []
  | l :: ls => do
    let b ← decodeDataLine l
    let r ← decodeDataLines ls
    pure (b ++ r)

theorem unescape_cons_ne (c : Nat) (hc : ¬ c = 37) (t : List Nat) :
    unescapeData (c :: t) = (unescapeData t).map (fun r => c :: r) := by
  cases t with
  | nil => simp [unescapeData, hc]
  | cons d t2 =>
    cases t2 with
    | nil => simp [unescapeData, hc]
    | cons e t3 => simp [unescapeData, hc]

theorem unescape_escapeByte_append (b : Nat) (t : List Nat) :
    unescapeData (escapeByte b ++ t) = (unescapeData t).map (fun r => b :: r) := by
  by_cases h37 : b = 37
  · subst h37; simp [escapeByte, unescapeData, isHexDigitByte, hexDigitVal]
  by_cases h13 : b = 13
  · subst h13; simp [escapeByte, unescapeData, isHexDigitByte, hexDigitVal]
  by_cases h10 : b = 10
  · subst h10; simp [escapeByte, unescapeData, isHexDigitByte, hexDigitVal]
  by_cases h0 : b = 0
  · subst h0; simp [escapeByte, unescapeData, isHexDigitByte, hexDigitVal]
  · have he : escapeByte b = [b] := by simp [escapeByte, h37, h13, h10, h0]
    rw [he, List.cons_append, List.nil_append, unescape_cons_ne b h37]

theorem unescape_units_append (bs : List Nat) (t : List Nat) :
    unescapeData ((bs.map escapeByte).flatten ++ t) = (unescapeData t).map (fun r => bs ++ r) := by
  induction bs with
  | nil =>
    simp only [List.map_nil, List.flatten_nil, List.nil_append]
    cases unescapeData t <;> simp
  | cons b bs ih =>
    simp only [List.map_cons, List.flatten_cons, List.append_assoc]
    rw [unescape_escapeByte_append, ih]
    cases unescapeData t <;> simp

theorem unescape_units (bs : List Nat) :
    unescapeData ((bs.map escapeByte).flatten) = some bs := by
  have h := unescape_units_append bs []
  simpa [unescapeData] using h

theorem takeLineUnits_map (cap : Nat) (bs : List Nat) :
    ∃ bs1 bs2, bs = bs1 ++ bs2 ∧
      takeLineUnits cap (bs.map escapeByte) = (bs1.map escapeByte, bs2.map escapeByte) := by
  induction bs generalizing cap with
  | nil => exact ⟨[], [], rfl, rfl⟩
  | cons b bs ih =>
    by_cases h : (escapeByte b).length ≤ cap
    · obtain ⟨bs1, bs2, heq, htake⟩ := ih (cap - (escapeByte b).length)
      refine ⟨b :: bs1, bs2, by simp [heq], ?_⟩
      simp [takeLineUnits, h, htake]
    · exact ⟨[], b :: bs, rfl, by simp [takeLineUnits, h]⟩

theorem chunk_decode (n : Nat) : ∀ (cap : Nat) (bs : List Nat), bs.length ≤ n →
    decodeDataLines ((chunkUnits cap (bs.map escapeByte)).map
      (fun g => 68 :: 32 :: g.flatten)) = some bs := by
  induction n with
  | zero =>
    intro cap bs hlen
    have : bs = [] := List.length_eq_zero.mp (Nat.le_zero.mp hlen)
    subst this
    simp [chunkUnits, decodeDataLines]
  | succ n ih =>
    intro cap bs hlen
    match bs with
    | [] => simp [chunkUnits, decodeDataLines]
    | b :: bs =>
      obtain ⟨bs1, bs2, heq, htake⟩ := takeLineUnits_map (cap - (escapeByte b).length) bs
      have hchunk : chunkUnits cap ((b :: bs).map escapeByte) =
          (escapeByte b :: bs1.map escapeByte) :: chunkUnits cap (bs2.map escapeByte) := by
        rw [List.map_cons, chunkUnits]
        simp [htake]
      rw [hchunk, List.map_cons]
      have hline : decodeDataLine
          (68 :: 32 :: (escapeByte b :: bs1.map escapeByte).flatten) = some (b :: bs1) := by
        have : (escapeByte b :: bs1.map escapeByte).flatten =
            ((b :: bs1).map escapeByte).flatten := by simp
        rw [decodeDataLine, this, unescape_units]
      have hlen2 : bs2.length ≤ n := by
        have : bs.length ≤ n := Nat.le_of_succ_le_succ (by simpa using hlen)
        calc bs2.length ≤ bs.length := by
              rw [heq, List.length_append]; exact Nat.le_add_left _ _
          _ ≤ n := this
      rw [decodeDataLines, hline, ih cap bs2 hlen2]
      simp [heq]

theorem unescape_malformed_aux (n : Nat) : ∀ pre post : List Nat, pre.length ≤ n →
    (¬ ∃ h l t2, post = h :: l :: t2 ∧ isHexDigitByte h = true ∧ isHexDigitByte l = true) →
    unescapeData (pre ++ 37 :: post) = none := by
  induction n using Nat.strong_induction_on with
  | _ n ih =>
    intro pre post hlen hbad
    match pre with
    | [] =>
      match post with
      | [] => simp [unescapeData]
      | [h] => simp [unescapeData]
      | h :: l :: t2 =>
        have : ¬ (isHexDigitByte h && isHexDigitByte l) = true := by
          intro hc
          exact hbad ⟨h, l, t2, rfl, (Bool.and_eq_true _ _).mp hc |>.1,
            (Bool.and_eq_true _ _).mp hc |>.2⟩
        simp [unescapeData, this]
    | c :: pre2 =>
      by_cases hc : c = 37
      · subst hc
        match pre2 with
        | [] =>
          match post with
          | [] => simp [unescapeData, isHexDigitByte]
          | p :: ps => simp [unescapeData, isHexDigitByte]
        | [d] =>
          have h37 : isHexDigitByte 37 = false := by decide
          simp [unescapeData, h37]
        | d :: e :: pre3 =>
          have hlen3 : pre3.length < n := by
            simp only [List.length_cons] at hlen
            omega
          have hrec := ih pre3.length hlen3 pre3 post (Nat.le_refl _) hbad
          by_cases hde : (isHexDigitByte d && isHexDigitByte e) = true
          · simp [unescapeData, hde, hrec]
          · simp [unescapeData, hde]
      · have hlen2 : pre2.length < n := by
          simp only [List.length_cons] at hlen
          omega
        have hrec := ih pre2.length hlen2 pre2 post (Nat.le_refl _) hbad
        rw [List.cons_append, unescape_cons_ne c hc, hrec]
        rfl

/-- Claim C3: for every byte string `b` (including `%`, CR, LF, NUL and the
empty string), decoding the data-line encoding of `b` yields exactly `b`,
and unescaping any line that contains a `%` not followed by two hex digits
at a parse position fails (surfaced as `ParseError`) rather than passing
the bytes through. -/
theorem c3_codec_roundtrip_and_malformed :
    (∀ bs : List Nat, decodeDataLines (encodeData bs) = some bs) ∧
    (∀ pre post : List Nat,
      (¬ ∃ h l t2, post = h :: l :: t2 ∧ isHexDigitByte h = true ∧ isHexDigitByte l = true) →
      unescapeData (pre ++ 37 :: post) = none) := by
  constructor
  · intro bs
    exact chunk_decode bs.length 998 bs (Nat.le_refl _)
  · intro pre post hbad
    exact unescape_malformed_aux pre.length pre post (Nat.le_refl _) hbad

/-- Claim C3 witness: the escape-heavy payload `[37, 13, 10, 0, 65]`
(`%`, CR, LF, NUL, `A`) round-trips through the data-line codec, and the
line `%ZZ` (a malformed escape) fails to decode. -/
theorem c3_codec_witness :
    decodeDataLines (encodeData [37, 13, 10, 0, 65]) = some [37, 13, 10, 0, 65] ∧
    unescapeData [37, 90, 90] = none := by
  constructor
  · exact c3_codec_roundtrip_and_malformed.1 [37, 13, 10, 0, 65]
  · refine c3_codec_roundtrip_and_malformed.2 [] [90, 90] ?_
    rintro ⟨h, l, t2, heq, hh, hl⟩
    injection heq with e1 rest
    rw [← e1] at hh
    exact absurd hh (by decide)

/-! ## Assuan session (modelled from the spec) and the signing handshake (from src) -/

inductive ResponseType where
  | ok
  | error
  | rawData
  | information
  | inquire
  | comment
  deriving DecidableEq

inductive Response where
  | ok (info : String)
  | error (code : Nat) (description : String)
  | rawData (bytes : List Nat)
  | information (keyword text : String)
  | inquire (keyword : String)
  | comment (text : String)
  deriving DecidableEq

def Response.getType : Response → ResponseType
  | .ok _ => .ok
  | .error _ _ => .error
  | .rawData _ => .rawData
  | .information _ _ => .information
  | .inquire _ => .inquire
  | .comment _ => .comment

inductive Request where
  | command (name argument : String)
  | rawData (bytes : List Nat)
  deriving DecidableEq

inductive AssuanError where
  | protocolViolation
  | sessionClosed
  | endOfStream
  | unexpectedResponse (expected actual : ResponseType)
  | unhandledFlow
  deriving DecidableEq

/-- Modelled from the spec (4.3): session states
`AwaitingGreeting → Ready ⇄ AwaitingResponse`, terminal `Closed`. -/
inductive SessionState where
  | awaitingGreeting
  | ready
  | awaitingResponse
  | closed
  deriving DecidableEq

/-- Modelled from the spec (4.2-4.3): a session over a scripted peer.
`script` holds the responses the peer will deliver in order, `sent` the
requests written so far, `disposeCalls` how many times the transport was
released, `log` the debug lines emitted so far. -/
structure Client where
  script : List Response
  sent : List Request
  state : SessionState
  disposeCalls : Nat
  log : List String
  deriving DecidableEq

/-- State-passing session computations: errors short-circuit but the
session state at the point of failure is kept (so cleanup can run). -/
def M (α : Type) : Type := Client → Except AssuanError α × Client

instance : Monad M where
  pure a := fun c => (Except.ok a, c)
  bind m f := fun c =>
    match m c with
    | (Except.ok a, c1) => f a c1
    | (Except.error e, c1) => (Except.error e, c1)

@[simp] theorem M_pure_apply {α : Type} (a : α) (c : Client) :
    (pure a : M α) c = (Except.ok a, c) := rfl

@[simp] theorem M_bind_apply {α β : Type} (m : M α) (f : α → M β) (c : Client) :
    (m >>= f) c = match m c with
      | (Except.ok a, c1) => f a c1
      | (Except.error e, c1) => (Except.error e, c1) := rfl

/-- Modelled from the spec (4.3): the next semantically terminal response
of the scripted peer; comment lines never end the wait. -/
def popScript : List Response → Option (Response × List Response)
  | [] => none
  | .comment _ :: t => popScript t
  | r :: t => some (r, t)

def typeName : ResponseType → String
  | .ok => "OK"
  | .error => "ERR"
  | .rawData => "D"
  | .information => "S"
  | .inquire => "INQUIRE"
  | .comment => "comment"

/-- Modelled from the spec: the session logs request/response metadata
only; raw-data payload bytes (a passphrase, a signature) are never put in
the log under any circumstance. -/
def sendLogLine : Request → String
  | .command name _ => "send command " ++ name
  | .rawData _ => "send data"

/-- Modelled from the spec (4.3): reads and decodes lines, skipping
comments, until a terminal response is obtained; transitions to `Ready`.
On a disposed session it fails with `SessionClosed`; if the peer closes
with no further data it fails with `EndOfStream`. -/
def receiveResponse : M Response := fun c =>
  if c.state = SessionState.closed then (Except.error AssuanError.sessionClosed, c)
  else match popScript c.script with
    | none => (Except.error AssuanError.endOfStream, c)
    | some (r, rest) =>
      (Except.ok r, { c with
        script := rest,
        state := SessionState.ready,
        log := c.log ++ ["receive " ++ typeName r.getType] })

/-- Modelled from the spec (4.3): the state a send transitions to.  A
command awaits its response; raw-data lines answer an inquiry and are
terminated by the separate `END` command, so a raw-data send leaves the
session `Ready` (step 5b of the handshake, data then `END` back to back
as the source's `sign` performs it, depends on this). -/
def nextState : Request → SessionState
  | .command _ _ => SessionState.awaitingResponse
  | .rawData _ => SessionState.ready

/-- Modelled from the spec (4.3): valid only in `Ready`; calling while
already `AwaitingResponse` fails with `ProtocolViolation`, on a disposed
session with `SessionClosed`. -/
def sendRequest (r : Request) : M Unit := fun c =>
  if c.state = SessionState.closed then (Except.error AssuanError.sessionClosed, c)
  else if c.state = SessionState.ready then
    (Except.ok (), { c with
      sent := c.sent ++ [r],
      state := nextState r,
      log := c.log ++ [sendLogLine r] })
  else (Except.error AssuanError.protocolViolation, c)

/-- Modelled from the spec (4.3): assert a response's variant, failing
with `UnexpectedResponse(expected, actual)` otherwise. -/
def checkType (r : Response) (expected : ResponseType) : M Unit := fun c =>
  if r.getType = expected then (Except.ok (), c)
  else (Except.error (AssuanError.unexpectedResponse expected r.getType), c)

/-- Modelled from the spec (4.3): a fresh session awaiting the agent's
unsolicited greeting. -/
def initClient (script : List Response) : Client :=
  { script := script, sent := [], state := SessionState.awaitingGreeting,
    disposeCalls := 0, log := [] }

/-- Modelled from the spec (4.3): close the transport; the session is
terminal afterwards. -/
def dispose (c : Client) : Client :=
  { c with state := SessionState.closed, disposeCalls := c.disposeCalls + 1 }

def throwE {α : Type} (e : AssuanError) : M α := fun c => (Except.error e, c)

/-- UTF-8 bytes of a string, as `Buffer.from(passphrase)` produces them. -/
def strBytes (s : String) : List Nat := s.toUTF8.data.toList.map (fun b => b.toNat)

/-- The branch of `sign` on the response to PKSIGN: RawData means the key
is already unlocked (drain the trailing Ok); Information (the agent's
`S INQUIRE_MAXLEN` line, key locked) means answer the passphrase inquiry
with raw data and `END`, then expect the signature and Ok; anything else
is the unhandled signing flow. Translated from the source's if/else. -/
def signBranch (passphrase : String) (r4 : Response) : M Unit :=
  if r4.getType = ResponseType.rawData then do
    let r5 ← receiveResponse
    checkType r5 ResponseType.ok
  else if r4.getType = ResponseType.information then do
    let r6 ← receiveResponse
    checkType r6 ResponseType.inquire
    sendRequest (Request.rawData (strBytes passphrase))
    sendRequest (Request.command "END" "")
    let r7 ← receiveResponse
    checkType r7 ResponseType.rawData
    let r8 ← receiveResponse
    checkType r8 ResponseType.ok
  else throwE AssuanError.unhandledFlow

/-- The body of the signing handshake, translated statement by statement
from `sign` in the source (the part inside the `try`): greeting, OPTION,
SIGKEY, SETHASH, PKSIGN with its two handled branches, then BYE. -/
def signBody (keygrip passphrase sha1Hash : String) : M Unit := do
  let r0 ← receiveResponse
  checkType r0 ResponseType.ok
  sendRequest (Request.command "OPTION" "pinentry-mode loopback")
  let r1 ← receiveResponse
  checkType r1 ResponseType.ok
  sendRequest (Request.command "SIGKEY" keygrip)
  let r2 ← receiveResponse
  checkType r2 ResponseType.ok
  sendRequest (Request.command "SETHASH" ("--hash=sha1 " ++ sha1Hash))
  let r3 ← receiveResponse
  checkType r3 ResponseType.ok
  sendRequest (Request.command "PKSIGN" "")
  let r4 ← receiveResponse
  signBranch passphrase r4
  sendRequest (Request.command "BYE" "")
  let r9 ← receiveResponse
  checkType r9 ResponseType.ok

/-- `sign` from the source: initialize the client, run the handshake body
and dispose the session on every exit path (the `try`/`finally`). -/
def sign (script : List Response) (keygrip passphrase sha1Hash : String) :
    Except AssuanError Unit × Client :=
  let c0 := initClient script
  let p := signBody keygrip passphrase sha1Hash c0
  (p.1, dispose p.2)

/-- Claim C1: when the peer answers the greeting, OPTION, SIGKEY and
SETHASH with Ok and answers PKSIGN with Information `INQUIRE_MAXLEN`
followed by `Inquire("PASSPHRASE")`, the handshake sends exactly one
RawData request whose bytes are the supplied passphrase, then `END`,
consumes the RawData signature and the trailing Ok, sends BYE and
completes successfully (the whole script is consumed). -/
theorem c1_locked_key_handshake (g o s hh m st bye : String) (sigBytes : List Nat)
    (keygrip passphrase sha1Hash : String) :
    (sign [Response.ok g, Response.ok o, Response.ok s, Response.ok hh,
        Response.information "INQUIRE_MAXLEN" m, Response.inquire "PASSPHRASE",
        Response.rawData sigBytes, Response.ok st, Response.ok bye]
      keygrip passphrase sha1Hash).1 = Except.ok () ∧
    (sign [Response.ok g, Response.ok o, Response.ok s, Response.ok hh,
        Response.information "INQUIRE_MAXLEN" m, Response.inquire "PASSPHRASE",
        Response.rawData sigBytes, Response.ok st, Response.ok bye]
      keygrip passphrase sha1Hash).2.sent =
      [Request.command "OPTION" "pinentry-mode loopback",
       Request.command "SIGKEY" keygrip,
       Request.command "SETHASH" ("--hash=sha1 " ++ sha1Hash),
       Request.command "PKSIGN" "",
       Request.rawData (strBytes passphrase),
       Request.command "END" "",
       Request.command "BYE" ""] ∧
    (sign [Response.ok g, Response.ok o, Response.ok s, Response.ok hh,
        Response.information "INQUIRE_MAXLEN" m, Response.inquire "PASSPHRASE",
        Response.rawData sigBytes, Response.ok st, Response.ok bye]
      keygrip passphrase sha1Hash).2.script = [] :=
  ⟨rfl, rfl, rfl⟩

/-- Claim C2: when the peer answers the greeting, OPTION, SIGKEY and
SETHASH with Ok and answers PKSIGN with RawData followed by Ok, the
handshake completes successfully; the sent trace contains no RawData
request and no `END` command (the passphrase is never requested). -/
theorem c2_unlocked_key_handshake (g o s hh st bye : String) (sigBytes : List Nat)
    (keygrip passphrase sha1Hash : String) :
    (sign [Response.ok g, Response.ok o, Response.ok s, Response.ok hh,
        Response.rawData sigBytes, Response.ok st, Response.ok bye]
      keygrip passphrase sha1Hash).1 = Except.ok () ∧
    (sign [Response.ok g, Response.ok o, Response.ok s, Response.ok hh,
        Response.rawData sigBytes, Response.ok st, Response.ok bye]
      keygrip passphrase sha1Hash).2.sent =
      [Request.command "OPTION" "pinentry-mode loopback",
       Request.command "SIGKEY" keygrip,
       Request.command "SETHASH" ("--hash=sha1 " ++ sha1Hash),
       Request.command "PKSIGN" "",
       Request.command "BYE" ""] ∧
    (sign [Response.ok g, Response.ok o, Response.ok s, Response.ok hh,
        Response.rawData sigBytes, Response.ok st, Response.ok bye]
      keygrip passphrase sha1Hash).2.script = [] :=
  ⟨rfl, rfl, rfl⟩

/-! ## Disposal discipline (claims C4, C5) -/

/-- A session computation that never releases the transport itself. -/
def PreservesDispose {α : Type} (m : M α) : Prop :=
  ∀ c : Client, ((m c).2).disposeCalls = c.disposeCalls

theorem preservesDispose_bind {α β : Type} {m : M α} {f : α → M β}
    (hm : PreservesDispose m) (hf : ∀ a, PreservesDispose (f a)) :
    PreservesDispose (m >>= f) := by
  intro c
  have hmc := hm c
  rw [M_bind_apply]
  cases h : m c with
  | mk r c1 =>
    rw [h] at hmc
    cases r with
    | ok a =>
      have := hf a c1
      simpa [this] using hmc
    | error e => simpa using hmc

theorem preservesDispose_receive : PreservesDispose receiveResponse := by
  intro c
  simp only [receiveResponse]
  by_cases hs : c.state = SessionState.closed
  · simp [hs]
  · simp only [if_neg hs]
    cases hp : popScript c.script with
    | none => rfl
    | some pr => rfl

theorem preservesDispose_send (r : Request) : PreservesDispose (sendRequest r) := by
  intro c
  simp only [sendRequest]
  by_cases hs : c.state = SessionState.closed
  · simp [hs]
  · by_cases hr : c.state = SessionState.ready
    · simp [hs, hr]
    · simp [hs, hr]

theorem preservesDispose_check (r : Response) (t : ResponseType) :
    PreservesDispose (checkType r t) := by
  intro c
  simp only [checkType]
  by_cases h : r.getType = t
  · simp [h]
  · simp [h]

theorem preservesDispose_throw {α : Type} (e : AssuanError) :
    PreservesDispose (throwE e : M α) := fun _ => rfl

theorem preservesDispose_pure {α : Type} (a : α) :
    PreservesDispose (pure a : M α) := fun _ => rfl

theorem preservesDispose_signBranch (pp : String) (r4 : Response) :
    PreservesDispose (signBranch pp r4) := by
  unfold signBranch
  split
  · apply preservesDispose_bind preservesDispose_receive; intro r5
    exact preservesDispose_check _ _
  · split
    · apply preservesDispose_bind preservesDispose_receive; intro r6
      apply preservesDispose_bind (preservesDispose_check _ _); intro _
      apply preservesDispose_bind (preservesDispose_send _); intro _
      apply preservesDispose_bind (preservesDispose_send _); intro _
      apply preservesDispose_bind preservesDispose_receive; intro r7
      apply preservesDispose_bind (preservesDispose_check _ _); intro _
      apply preservesDispose_bind preservesDispose_receive; intro r8
      exact preservesDispose_check _ _
    · exact preservesDispose_throw _

theorem preservesDispose_signBody (kg pp hash : String) :
    PreservesDispose (signBody kg pp hash) := by
  unfold signBody
  apply preservesDispose_bind preservesDispose_receive; intro r0
  apply preservesDispose_bind (preservesDispose_check _ _); intro _
  apply preservesDispose_bind (preservesDispose_send _); intro _
  apply preservesDispose_bind preservesDispose_receive; intro r1
  apply preservesDispose_bind (preservesDispose_check _ _); intro _
  apply preservesDispose_bind (preservesDispose_send _); intro _
  apply preservesDispose_bind preservesDispose_receive; intro r2
  apply preservesDispose_bind (preservesDispose_check _ _); intro _
  apply preservesDispose_bind (preservesDispose_send _); intro _
  apply preservesDispose_bind preservesDispose_receive; intro r3
  apply preservesDispose_bind (preservesDispose_check _ _); intro _
  apply preservesDispose_bind (preservesDispose_send _); intro _
  apply preservesDispose_bind preservesDispose_receive; intro r4
  apply preservesDispose_bind (preservesDispose_signBranch pp r4); intro _
  apply preservesDispose_bind (preservesDispose_send _); intro _
  apply preservesDispose_bind preservesDispose_receive; intro r9
  exact preservesDispose_check _ _

/-- Claim C4: for every run of the signing handshake, on every script (so
whether the run succeeds or fails at any step), the session's transport is
released exactly once before the result or error is returned. -/
theorem c4_disposed_exactly_once (script : List Response) (kg pp hash : String) :
    ((sign script kg pp hash).2).disposeCalls = 1 := by
  have h := preservesDispose_signBody kg pp hash (initClient script)
  simp only [sign, dispose]
  rw [h]
  rfl

/-- Claim C5 (amended): calling `sendRequest` while the session is already
`AwaitingResponse` fails with `ProtocolViolation`, and since a command
send transitions `Ready → AwaitingResponse`, a command followed by any
second send with no intervening `receiveResponse` raises
`ProtocolViolation`.  (A raw-data send, which answers an inquiry, leaves
the session `Ready` and may be followed directly by the `END` command, as
the source's `sign` does.) -/
theorem c5_double_send_protocol_violation :
    (∀ (c : Client) (r : Request), c.state = SessionState.awaitingResponse →
      sendRequest r c = (Except.error AssuanError.protocolViolation, c)) ∧
    (∀ (c : Client) (name arg : String) (r2 : Request), c.state = SessionState.ready →
      ((sendRequest (Request.command name arg) >>= fun _ => sendRequest r2) c).1 =
        Except.error AssuanError.protocolViolation) := by
  constructor
  · intro c r h
    simp [sendRequest, h]
  · intro c name arg r2 h
    rw [M_bind_apply]
    have h1 : sendRequest (Request.command name arg) c =
        (Except.ok (), { c with
          sent := c.sent ++ [Request.command name arg],
          state := SessionState.awaitingResponse,
          log := c.log ++ [sendLogLine (Request.command name arg)] }) := by
      simp [sendRequest, h, nextState]
    rw [h1]
    simp [sendRequest]

/-- Claim C5 witness: on a concrete ready session, a command send followed
by a second send with no intervening receive fails with
`ProtocolViolation`. -/
theorem c5_double_send_witness :
    ((sendRequest (Request.command "SIGKEY" "ABC") >>= fun _ =>
        sendRequest (Request.command "PKSIGN" ""))
      { script := [], sent := [], state := SessionState.ready,
        disposeCalls := 0, log := [] }).1 =
      Except.error AssuanError.protocolViolation :=
  c5_double_send_protocol_violation.2
    { script := [], sent := [], state := SessionState.ready,
      disposeCalls := 0, log := [] } "SIGKEY" "ABC" (Request.command "PKSIGN" "") rfl

/-- Claim C5 counterexample: the claim as stated (any two `sendRequest`
calls with no intervening `receiveResponse` raise `ProtocolViolation`)
fails at a concrete input: a raw-data send followed by the `END` command —
exactly what the source's `sign` performs when answering the passphrase
inquiry — succeeds, and must, for the locked-key handshake to complete. -/
theorem c5_double_send_counterexample :
    ((sendRequest (Request.rawData [112]) >>= fun _ =>
        sendRequest (Request.command "END" ""))
      { script := [], sent := [], state := SessionState.ready,
        disposeCalls := 0, log := [] }).1 = Except.ok () := rfl

/-! ## Passphrase hygiene (claim C6) -/

/-- Erase raw-data payloads from a request, keeping its shape. -/
def eraseRaw : Request → Request
  | .command n a => .command n a
  | .rawData _ => .rawData []

/-- Two session states that agree on everything except raw-data payload
bytes in the sent trace. -/
def ClientR (c1 c2 : Client) : Prop :=
  c1.script = c2.script ∧ c1.state = c2.state ∧ c1.log = c2.log ∧
  c1.disposeCalls = c2.disposeCalls ∧ c1.sent.map eraseRaw = c2.sent.map eraseRaw

/-- Two session computations that, run from payload-equivalent states,
return equal results and land in payload-equivalent states. -/
def MR {α : Type} (m1 m2 : M α) : Prop :=
  ∀ c1 c2, ClientR c1 c2 → (m1 c1).1 = (m2 c2).1 ∧ ClientR (m1 c1).2 (m2 c2).2

theorem MR_bind {α β : Type} {m1 m2 : M α} {f1 f2 : α → M β}
    (hm : MR m1 m2) (hf : ∀ a, MR (f1 a) (f2 a)) : MR (m1 >>= f1) (m2 >>= f2) := by
  intro c1 c2 hR
  obtain ⟨h1, h2⟩ := hm c1 c2 hR
  rw [M_bind_apply, M_bind_apply]
  cases e1 : m1 c1 with
  | mk r1 c1' =>
    cases e2 : m2 c2 with
    | mk r2 c2' =>
      rw [e1, e2] at h1 h2
      simp only at h1 h2
      cases r1 with
      | ok a =>
        cases r2 with
        | ok b =>
          injection h1 with hab
          subst hab
          exact hf a c1' c2' h2
        | error e => exact absurd h1 (by simp)
      | error e =>
        cases r2 with
        | ok b => exact absurd h1 (by simp)
        | error e2 =>
          injection h1 with he
          subst he
          exact ⟨rfl, h2⟩

theorem MR_pure {α : Type} (a : α) : MR (pure a : M α) (pure a) := by
  intro c1 c2 hR
  exact ⟨rfl, hR⟩

theorem MR_receive : MR receiveResponse receiveResponse := by
  intro c1 c2 hR
  obtain ⟨hscript, hstate, hlog, hdc, hsent⟩ := hR
  simp only [receiveResponse, hscript, hstate, hlog]
  by_cases hs : c2.state = SessionState.closed
  · simp only [if_pos hs]
    exact ⟨trivial, hscript, hstate, hlog, hdc, hsent⟩
  · simp only [if_neg hs]
    cases hp : popScript c2.script with
    | none => exact ⟨rfl, hscript, hstate, hlog, hdc, hsent⟩
    | some pr =>
      obtain ⟨r, rest⟩ := pr
      exact ⟨rfl, rfl, rfl, rfl, hdc, hsent⟩

theorem MR_send {r1 r2 : Request} (hr : eraseRaw r1 = eraseRaw r2) :
    MR (sendRequest r1) (sendRequest r2) := by
  have hlogline : sendLogLine r1 = sendLogLine r2 := by
    cases r1 <;> cases r2 <;> simp_all [eraseRaw, sendLogLine]
  have hnext : nextState r1 = nextState r2 := by
    cases r1 <;> cases r2 <;> simp_all [eraseRaw, nextState]
  intro c1 c2 hR
  obtain ⟨hscript, hstate, hlog, hdc, hsent⟩ := hR
  simp only [sendRequest, hstate]
  by_cases hs : c2.state = SessionState.closed
  · simp only [if_pos hs]
    exact ⟨trivial, hscript, hstate, hlog, hdc, hsent⟩
  · simp only [if_neg hs]
    by_cases hrdy : c2.state = SessionState.ready
    · simp only [if_pos hrdy]
      refine ⟨trivial, hscript, ?_, ?_, hdc, ?_⟩
      · simp [hnext]
      · simp [hlog, hlogline]
      · simp only [List.map_append, hsent, List.map_cons, List.map_nil, hr]
    · simp only [if_neg hrdy]
      exact ⟨trivial, hscript, hstate, hlog, hdc, hsent⟩

theorem MR_check (r : Response) (t : ResponseType) :
    MR (checkType r t) (checkType r t) := by
  intro c1 c2 hR
  simp only [checkType]
  by_cases h : r.getType = t
  · simp only [if_pos h]
    exact ⟨trivial, hR⟩
  · simp only [if_neg h]
    exact ⟨trivial, hR⟩

theorem MR_throw {α : Type} (e : AssuanError) : MR (throwE e : M α) (throwE e) := by
  intro c1 c2 hR
  exact ⟨rfl, hR⟩

theorem MR_signBranch (p1 p2 : String) (r4 : Response) :
    MR (signBranch p1 r4) (signBranch p2 r4) := by
  unfold signBranch
  by_cases h1 : r4.getType = ResponseType.rawData
  · simp only [if_pos h1]
    apply MR_bind MR_receive; intro r5
    exact MR_check _ _
  · simp only [if_neg h1]
    by_cases h2 : r4.getType = ResponseType.information
    · simp only [if_pos h2]
      apply MR_bind MR_receive; intro r6
      apply MR_bind (MR_check _ _); intro _
      apply MR_bind (MR_send (by simp [eraseRaw])); intro _
      apply MR_bind (MR_send rfl); intro _
      apply MR_bind MR_receive; intro r7
      apply MR_bind (MR_check _ _); intro _
      apply MR_bind MR_receive; intro r8
      exact MR_check _ _
    · simp only [if_neg h2]
      exact MR_throw _

theorem MR_signBody (kg hash p1 p2 : String) :
    MR (signBody kg p1 hash) (signBody kg p2 hash) := by
  unfold signBody
  apply MR_bind MR_receive; intro r0
  apply MR_bind (MR_check _ _); intro _
  apply MR_bind (MR_send rfl); intro _
  apply MR_bind MR_receive; intro r1
  apply MR_bind (MR_check _ _); intro _
  apply MR_bind (MR_send rfl); intro _
  apply MR_bind MR_receive; intro r2
  apply MR_bind (MR_check _ _); intro _
  apply MR_bind (MR_send rfl); intro _
  apply MR_bind MR_receive; intro r3
  apply MR_bind (MR_check _ _); intro _
  apply MR_bind (MR_send rfl); intro _
  apply MR_bind MR_receive; intro r4
  apply MR_bind (MR_signBranch p1 p2 r4); intro _
  apply MR_bind (MR_send rfl); intro _
  apply MR_bind MR_receive; intro r9
  exact MR_check _ _

/-- The raw-data payloads of a request trace, in order. -/
def rawPayloads (rs : List Request) : List (List Nat) :=
  rs.filterMap (fun r => match r with
    | .rawData bs => some bs
    | .command _ _ => none)

theorem rawPayloads_append (a b : List Request) :
    rawPayloads (a ++ b) = rawPayloads a ++ rawPayloads b :=
  List.filterMap_append a b _

/-- A session computation that sends no raw data at all. -/
def NoRawAdds {α : Type} (m : M α) : Prop :=
  ∀ c, rawPayloads ((m c).2.sent) = rawPayloads c.sent

/-- A session computation that sends at most one raw-data payload, `bs`. -/
def AtMostOneRaw {α : Type} (m : M α) (bs : List Nat) : Prop :=
  ∀ c, rawPayloads ((m c).2.sent) = rawPayloads c.sent ∨
       rawPayloads ((m c).2.sent) = rawPayloads c.sent ++ [bs]

theorem noRaw_bind {α β : Type} {m : M α} {f : α → M β}
    (hm : NoRawAdds m) (hf : ∀ a, NoRawAdds (f a)) : NoRawAdds (m >>= f) := by
  intro c
  have hmc := hm c
  rw [M_bind_apply]
  cases h : m c with
  | mk r c1 =>
    rw [h] at hmc
    cases r with
    | ok a =>
      have := hf a c1
      simpa [this] using hmc
    | error e => simpa using hmc

theorem noRaw_then_atMostOne {α β : Type} {m : M α} {f : α → M β} {bs : List Nat}
    (hm : NoRawAdds m) (hf : ∀ a, AtMostOneRaw (f a) bs) : AtMostOneRaw (m >>= f) bs := by
  intro c
  have hmc := hm c
  rw [M_bind_apply]
  cases h : m c with
  | mk r c1 =>
    rw [h] at hmc
    cases r with
    | ok a =>
      cases hf a c1 with
      | inl h1 => exact Or.inl (by simpa [h1] using hmc)
      | inr h1 => exact Or.inr (by simp at hmc; simp [h1, hmc])
    | error e => exact Or.inl (by simpa using hmc)

theorem atMostOne_then_noRaw {α β : Type} {m : M α} {f : α → M β} {bs : List Nat}
    (hm : AtMostOneRaw m bs) (hf : ∀ a, NoRawAdds (f a)) : AtMostOneRaw (m >>= f) bs := by
  intro c
  have hmc := hm c
  rw [M_bind_apply]
  cases h : m c with
  | mk r c1 =>
    rw [h] at hmc
    simp only at hmc
    cases r with
    | ok a =>
      have hfa := hf a c1
      cases hmc with
      | inl h1 => exact Or.inl (by simpa [hfa] using h1)
      | inr h1 => exact Or.inr (by simpa [hfa] using h1)
    | error e => simpa using hmc

theorem noRaw_receive : NoRawAdds receiveResponse := by
  intro c
  simp only [receiveResponse]
  by_cases hs : c.state = SessionState.closed
  · simp [hs]
  · simp only [if_neg hs]
    cases hp : popScript c.script with
    | none => rfl
    | some pr => rfl

theorem noRaw_send_command (n a : String) : NoRawAdds (sendRequest (Request.command n a)) := by
  intro c
  simp only [sendRequest]
  by_cases hs : c.state = SessionState.closed
  · simp [hs]
  · by_cases hr : c.state = SessionState.ready
    · simp [hs, hr, rawPayloads_append, rawPayloads]
    · simp [hs, hr]

theorem noRaw_check (r : Response) (t : ResponseType) : NoRawAdds (checkType r t) := by
  intro c
  simp only [checkType]
  by_cases h : r.getType = t
  · simp [h]
  · simp [h]

theorem noRaw_throw {α : Type} (e : AssuanError) : NoRawAdds (throwE e : M α) :=
  fun _ => rfl

theorem atMostOne_send_raw (bs : List Nat) :
    AtMostOneRaw (sendRequest (Request.rawData bs)) bs := by
  intro c
  simp only [sendRequest]
  by_cases hs : c.state = SessionState.closed
  · simp [hs]
  · by_cases hr : c.state = SessionState.ready
    · simp [hs, hr, rawPayloads_append, rawPayloads]
    · simp [hs, hr]

theorem atMostOne_signBranch (pp : String) (r4 : Response) :
    AtMostOneRaw (signBranch pp r4) (strBytes pp) := by
  unfold signBranch
  by_cases h1 : r4.getType = ResponseType.rawData
  · simp only [if_pos h1]
    have hnr : NoRawAdds (receiveResponse >>= fun r5 => checkType r5 ResponseType.ok) := by
      apply noRaw_bind noRaw_receive; intro r5
      exact noRaw_check _ _
    intro c
    exact Or.inl (hnr c)
  · simp only [if_neg h1]
    by_cases h2 : r4.getType = ResponseType.information
    · simp only [if_pos h2]
      apply noRaw_then_atMostOne noRaw_receive; intro r6
      apply noRaw_then_atMostOne (noRaw_check _ _); intro _
      apply atMostOne_then_noRaw (atMostOne_send_raw _); intro _
      apply noRaw_bind (noRaw_send_command _ _); intro _
      apply noRaw_bind noRaw_receive; intro r7
      apply noRaw_bind (noRaw_check _ _); intro _
      apply noRaw_bind noRaw_receive; intro r8
      exact noRaw_check _ _
    · simp only [if_neg h2]
      intro c
      exact Or.inl (noRaw_throw AssuanError.unhandledFlow c)

theorem atMostOne_signBody (kg pp hash : String) :
    AtMostOneRaw (signBody kg pp hash) (strBytes pp) := by
  unfold signBody
  apply noRaw_then_atMostOne noRaw_receive; intro r0
  apply noRaw_then_atMostOne (noRaw_check _ _); intro _
  apply noRaw_then_atMostOne (noRaw_send_command _ _); intro _
  apply noRaw_then_atMostOne noRaw_receive; intro r1
  apply noRaw_then_atMostOne (noRaw_check _ _); intro _
  apply noRaw_then_atMostOne (noRaw_send_command _ _); intro _
  apply noRaw_then_atMostOne noRaw_receive; intro r2
  apply noRaw_then_atMostOne (noRaw_check _ _); intro _
  apply noRaw_then_atMostOne (noRaw_send_command _ _); intro _
  apply noRaw_then_atMostOne noRaw_receive; intro r3
  apply noRaw_then_atMostOne (noRaw_check _ _); intro _
  apply noRaw_then_atMostOne (noRaw_send_command _ _); intro _
  apply noRaw_then_atMostOne noRaw_receive; intro r4
  apply atMostOne_then_noRaw (atMostOne_signBranch pp r4); intro _
  apply noRaw_bind (noRaw_send_command _ _); intro _
  apply noRaw_bind noRaw_receive; intro r9
  exact noRaw_check _ _

/-- Claim C6: two runs of the signing handshake that differ only in the
passphrase return the same result and produce identical log output (no
log line produced by the core depends on the passphrase), and the sent
trace of a run carries the passphrase bytes in at most one raw-data
request, whose bytes are exactly the UTF-8 bytes of the supplied
passphrase (zero raw-data sends when the branch never asks for it). -/
theorem c6_passphrase_not_logged_single_send
    (script : List Response) (kg hash p1 p2 : String) :
    (sign script kg p1 hash).1 = (sign script kg p2 hash).1 ∧
    (sign script kg p1 hash).2.log = (sign script kg p2 hash).2.log ∧
    (rawPayloads ((sign script kg p1 hash).2.sent) = [] ∨
     rawPayloads ((sign script kg p1 hash).2.sent) = [strBytes p1]) := by
  have hMR := MR_signBody kg hash p1 p2 (initClient script) (initClient script)
    ⟨rfl, rfl, rfl, rfl, rfl⟩
  have hAM := atMostOne_signBody kg p1 hash (initClient script)
  refine ⟨?_, ?_, ?_⟩
  · simpa [sign] using hMR.1
  · simp only [sign, dispose]
    exact hMR.2.2.2.1
  · simpa [sign, dispose, initClient, rawPayloads] using hAM

/-! ## Key catalog: `parseGpgKey` (from src)

The source parses the colon-delimited key listing with one JavaScript
regular expression, executed repeatedly with the sticky `lastIndex`
protocol:

`(pub|sub):(?:[^:]*:){10}([escaD?]+)\w*:(?:[^:]*:)*?\n(?:fpr|fp2):(?:[^:]*:){8}(\w*):(?:[^:]*:)*?\ngrp:(?:[^:]*:){8}(\w*):(?:[^:]*:)*?`

The definitions below hand-compile this pattern.  Each `(?:[^:]*:)` group
is forced: `[^:]*` is greedy, cannot contain `:`, and is followed by a
literal `:`, so backtracking inside it can never succeed — it consumes
exactly up to and including the next colon (possibly crossing line
breaks, since `[^:]` matches the newline).  Likewise `([escaD?]+)\w*:`
and `(\w*):` are forced because neither character class contains `:`.
The lazy `(?:[^:]*:)*?` loops try the continuation first and consume one
more colon-group only when the continuation fails.  The final lazy loop
has an empty continuation and matches nothing. -/

/-- The character class `[escaD?]` of the capability capture. -/
def isCapChar (c : Char) : Bool :=
  c = 'e' || c = 's' || c = 'c' || c = 'a' || c = 'D' || c = '?'

/-- The JavaScript `\w` class, `[A-Za-z0-9_]`. -/
def isWordChar (c : Char) : Bool := c.isAlphanum || c = '_'

/-- A literal `:` in the pattern. -/
def expectColon : List Char → Option (List Char)
  | c :: r => if c = ':' then some r else none
  | [] => none

theorem expectColon_eq_some (l r : List Char) : expectColon l = some r ↔ l = ':' :: r := by
  cases l with
  | nil => simp [expectColon]
  | cons c t =>
    by_cases hc : c = ':'
    · subst hc; simp [expectColon]
    · simp [expectColon, hc]

/-- One `(?:[^:]*:)` group: consume up to and including the next colon. -/
def skipField (s : List Char) : Option (List Char) :=
  expectColon (s.dropWhile (fun c => !(c = ':')))

/-- `(?:[^:]*:){n}`. -/
def skipFields : Nat → List Char → Option (List Char)
  | 0, s => some s
  | n + 1, s =>
    match skipField s with
    | some r => skipFields n r
    | none => none

theorem length_dropWhile_le (p : Char → Bool) (s : List Char) :
    (s.dropWhile p).length ≤ s.length := by
  induction s with
  | nil => simp
  | cons c t ih =>
    rw [List.dropWhile_cons]
    by_cases h : p c = true
    · simp only [if_pos h]
      exact Nat.le_succ_of_le ih
    · simp only [if_neg h]
      exact Nat.le_refl _

theorem skipField_length (s r : List Char) (h : skipField s = some r) :
    r.length < s.length := by
  have hd := (expectColon_eq_some _ _).mp h
  have hle := length_dropWhile_le (fun c => !(c = ':')) s
  rw [hd] at hle
  simp only [List.length_cons] at hle
  omega

theorem skipFields_length : ∀ (n : Nat) (s r : List Char),
    skipFields n s = some r → r.length ≤ s.length := by
  intro n
  induction n with
  | zero =>
    intro s r h
    simp [skipFields] at h
    subst h
    exact Nat.le_refl _
  | succ n ih =>
    intro s r h
    simp only [skipFields] at h
    cases hs : skipField s with
    | none => rw [hs] at h; exact absurd h (by simp)
    | some t =>
      rw [hs] at h
      exact Nat.le_of_lt (Nat.lt_of_le_of_lt (ih t r h) (skipField_length s t hs))

/-- `([escaD?]+)\w*:` — the capability capture, forced as explained
above: a maximal nonempty run of `[escaD?]`, then a maximal run of `\w`,
then a literal colon. -/
def matchCaps (s : List Char) : Option (List Char × List Char) :=
  if (s.takeWhile isCapChar).isEmpty then none
  else (expectColon ((s.dropWhile isCapChar).dropWhile isWordChar)).map
    (fun r => (s.takeWhile isCapChar, r))

/-- `(\w*):` — a capture of word characters followed by a colon. -/
def matchWordCapture (s : List Char) : Option (List Char × List Char) :=
  (expectColon (s.dropWhile isWordChar)).map (fun r => (s.takeWhile isWordChar, r))

theorem matchWordCapture_length (s : List Char) (w r : List Char)
    (h : matchWordCapture s = some (w, r)) : r.length < s.length := by
  simp only [matchWordCapture] at h
  cases he : expectColon (s.dropWhile isWordChar) with
  | none => rw [he] at h; exact absurd h (by simp)
  | some r2 =>
    rw [he] at h
    simp only [Option.map_some'] at h
    have hr2 : r2 = r := by
      injection h with h2
      exact congrArg Prod.snd h2
    subst hr2
    have hd := (expectColon_eq_some _ _).mp he
    have hle := length_dropWhile_le isWordChar s
    rw [hd] at hle
    simp only [List.length_cons] at hle
    omega

theorem matchCaps_length (s : List Char) (caps r : List Char)
    (h : matchCaps s = some (caps, r)) : r.length < s.length := by
  simp only [matchCaps] at h
  by_cases hemp : (s.takeWhile isCapChar).isEmpty
  · rw [if_pos hemp] at h; exact absurd h (by simp)
  · rw [if_neg hemp] at h
    cases he : expectColon ((s.dropWhile isCapChar).dropWhile isWordChar) with
    | none => rw [he] at h; exact absurd h (by simp)
    | some r2 =>
      rw [he] at h
      simp only [Option.map_some'] at h
      have hr2 : r2 = r := by
        injection h with h2
        exact congrArg Prod.snd h2
      subst hr2
      have hd := (expectColon_eq_some _ _).mp he
      have h1 := length_dropWhile_le isWordChar (s.dropWhile isCapChar)
      have h2 := length_dropWhile_le isCapChar s
      rw [hd] at h1
      simp only [List.length_cons] at h1
      omega

/-- A literal `\n` in the pattern, followed by the continuation `k`. -/
def expectNL {α : Type} (k : List Char → Option α) : List Char → Option α
  | c :: r => if c = '\n' then k r else none
  | [] => none

theorem expectNL_eq_some {α : Type} (k : List Char → Option α) (l : List Char) (v : α) :
    expectNL k l = some v ↔ ∃ r, l = '\n' :: r ∧ k r = some v := by
  cases l with
  | nil => simp [expectNL]
  | cons c t =>
    by_cases hc : c = '\n'
    · subst hc; simp [expectNL]
    · simp [expectNL, hc]

/-- The lazy `(?:[^:]*:)*?\n` loop with continuation `k`: try `\n` and
the continuation first; on failure consume one colon-group (which may
cross a line break) and repeat. -/
def lazyNL {α : Type} (k : List Char → Option α) (s : List Char) : Option α :=
  match expectNL k s with
  | some v => some v
  | none =>
    match h : skipField s with
    | some s1 => lazyNL k s1
    | none => none
termination_by s.length
decreasing_by exact skipField_length s s1 h

theorem lazyNL_shrink {α : Type} (n : Nat) :
    ∀ (k : List Char → Option α) (s : List Char) (v : α),
    s.length ≤ n → lazyNL k s = some v → ∃ s', s'.length < s.length ∧ k s' = some v := by
  induction n with
  | zero =>
    intro k s v hlen h
    have hs : s = [] := List.length_eq_zero.mp (Nat.le_zero.mp hlen)
    subst hs
    rw [lazyNL] at h
    simp [expectNL, skipField, expectColon] at h
  | succ n ih =>
    intro k s v hlen h
    rw [lazyNL] at h
    cases hfst : expectNL k s with
    | some w =>
      rw [hfst] at h
      obtain ⟨r, hr, hk⟩ := (expectNL_eq_some _ _ _).mp hfst
      refine ⟨r, ?_, ?_⟩
      · rw [hr]; simp
      · rw [hk]; simpa using h
    | none =>
      rw [hfst] at h
      cases hsf : skipField s with
      | none => rw [hsf] at h; exact absurd h (by simp)
      | some s1 =>
        rw [hsf] at h
        have hlt := skipField_length s s1 hsf
        obtain ⟨s', hs', hk⟩ := ih k s1 v (by omega) h
        exact ⟨s', Nat.lt_trans hs' hlt, hk⟩

/-- `grp:(?:[^:]*:){8}(\w*):` followed by the final (empty) lazy loop:
returns the keygrip capture and the rest right after its colon. -/
def matchGrpTail (s : List Char) : Option (List Char × List Char) :=
  match s with
  | a :: b :: c :: d :: r =>
    if a = 'g' ∧ b = 'r' ∧ c = 'p' ∧ d = ':' then
      (skipFields 8 r).bind matchWordCapture
    else none
  | _ => none

theorem matchGrpTail_length (s : List Char) (g r : List Char)
    (h : matchGrpTail s = some (g, r)) : r.length < s.length := by
  match s with
  | [] => exact absurd h (by simp [matchGrpTail])
  | [a] => exact absurd h (by simp [matchGrpTail])
  | [a, b] => exact absurd h (by simp [matchGrpTail])
  | [a, b, c] => exact absurd h (by simp [matchGrpTail])
  | a :: b :: c :: d :: rest =>
    simp only [matchGrpTail] at h
    by_cases hg : a = 'g' ∧ b = 'r' ∧ c = 'p' ∧ d = ':'
    · rw [if_pos hg] at h
      cases hsf : skipFields 8 rest with
      | none => rw [hsf] at h; exact absurd h (by simp)
      | some r1 =>
        rw [hsf, Option.some_bind] at h
        have h1 := skipFields_length 8 rest r1 hsf
        have h2 := matchWordCapture_length r1 g r h
        simp only [List.length_cons]
        omega
    · rw [if_neg hg] at h
      exact absurd h (by simp)

/-- `(?:fpr|fp2):(?:[^:]*:){8}(\w*):(?:[^:]*:)*?\n` then the grp part:
returns the fingerprint and keygrip captures and the rest of the text. -/
def matchFprGrp (s : List Char) : Option ((List Char × List Char) × List Char) :=
  match s with
  | a :: b :: c :: d :: r =>
    if a = 'f' ∧ b = 'p' ∧ (c = 'r' ∨ c = '2') ∧ d = ':' then
      (skipFields 8 r).bind (fun r1 =>
        (matchWordCapture r1).bind (fun p =>
          lazyNL (fun r3 => (matchGrpTail r3).map (fun q => ((p.1, q.1), q.2))) p.2))
    else none
  | _ => none

theorem matchFprGrp_length (s : List Char) (fg : List Char × List Char) (r : List Char)
    (h : matchFprGrp s = some (fg, r)) : r.length < s.length := by
  match s with
  | [] => exact absurd h (by simp [matchFprGrp])
  | [a] => exact absurd h (by simp [matchFprGrp])
  | [a, b] => exact absurd h (by simp [matchFprGrp])
  | [a, b, c] => exact absurd h (by simp [matchFprGrp])
  | a :: b :: c :: d :: rest =>
    simp only [matchFprGrp] at h
    by_cases hf : a = 'f' ∧ b = 'p' ∧ (c = 'r' ∨ c = '2') ∧ d = ':'
    · rw [if_pos hf] at h
      cases hsf : skipFields 8 rest with
      | none => rw [hsf] at h; exact absurd h (by simp)
      | some r1 =>
        rw [hsf, Option.some_bind] at h
        cases hwc : matchWordCapture r1 with
        | none => rw [hwc] at h; exact absurd h (by simp)
        | some p =>
          rw [hwc, Option.some_bind] at h
          obtain ⟨s', hs', hk⟩ := lazyNL_shrink p.2.length _ p.2 (fg, r) (Nat.le_refl _) h
          cases hgt : matchGrpTail s' with
          | none => rw [hgt] at hk; exact absurd hk (by simp)
          | some q =>
            rw [hgt] at hk
            simp only [Option.map_some'] at hk
            have hq : q.2 = r := by
              injection hk with h2
              exact congrArg Prod.snd h2
            have h1 := skipFields_length 8 rest r1 hsf
            have h2 := matchWordCapture_length r1 p.1 p.2 (by rw [hwc])
            have h3 := matchGrpTail_length s' q.1 q.2 hgt
            rw [hq] at h3
            simp only [List.length_cons]
            omega
    · rw [if_neg hf] at h
      exact absurd h (by simp)

/-- The `GpgKeyInfo` interface from the source. -/
structure GpgKeyInfo where
  type : String
  capabilities : String
  fingerprint : String
  keygrip : String
  deriving DecidableEq

/-- One attempt of the whole pattern at the start of `s`: on success the
matched key record and the text right after the match. -/
def matchBlock (s : List Char) : Option (GpgKeyInfo × List Char) :=
  match s with
  | k1 :: k2 :: k3 :: d :: r =>
    if ((k1 = 'p' ∧ k2 = 'u' ∧ k3 = 'b') ∨ (k1 = 's' ∧ k2 = 'u' ∧ k3 = 'b')) ∧ d = ':' then
      (skipFields 10 r).bind (fun r1 =>
        (matchCaps r1).bind (fun cp =>
          lazyNL (fun r3 =>
            (matchFprGrp r3).map (fun p =>
              ({ type := String.mk [k1, k2, k3],
                 capabilities := String.mk cp.1,
                 fingerprint := String.mk p.1.1,
                 keygrip := String.mk p.1.2 }, p.2))) cp.2))
    else none
  | _ => none

theorem matchBlock_length (s : List Char) (i : GpgKeyInfo) (r : List Char)
    (h : matchBlock s = some (i, r)) : r.length < s.length := by
  match s with
  | [] => exact absurd h (by simp [matchBlock])
  | [a] => exact absurd h (by simp [matchBlock])
  | [a, b] => exact absurd h (by simp [matchBlock])
  | [a, b, c] => exact absurd h (by simp [matchBlock])
  | k1 :: k2 :: k3 :: d :: rest =>
    simp only [matchBlock] at h
    by_cases ht : ((k1 = 'p' ∧ k2 = 'u' ∧ k3 = 'b') ∨ (k1 = 's' ∧ k2 = 'u' ∧ k3 = 'b')) ∧ d = ':'
    · rw [if_pos ht] at h
      cases hsf : skipFields 10 rest with
      | none => rw [hsf] at h; exact absurd h (by simp)
      | some r1 =>
        rw [hsf, Option.some_bind] at h
        cases hmc : matchCaps r1 with
        | none => rw [hmc] at h; exact absurd h (by simp)
        | some p =>
          rw [hmc, Option.some_bind] at h
          obtain ⟨s', hs', hk⟩ := lazyNL_shrink p.2.length _ p.2 (i, r) (Nat.le_refl _) h
          cases hfg : matchFprGrp s' with
          | none => rw [hfg] at hk; exact absurd hk (by simp)
          | some q =>
            rw [hfg] at hk
            simp only [Option.map_some'] at hk
            have hq : q.2 = r := by
              injection hk with h2
              exact congrArg Prod.snd h2
            have h1 := skipFields_length 10 rest r1 hsf
            have h2 := matchCaps_length r1 p.1 p.2 (by rw [hmc])
            have h3 := matchFprGrp_length s' q.1 q.2 hfg
            rw [hq] at h3
            simp only [List.length_cons]
            omega
    · rw [if_neg ht] at h
      exact absurd h (by simp)

/-- `RegExp.exec`'s search: the leftmost position at which the pattern
matches, scanning from the start of `s`. -/
def searchBlock : List Char → Option (GpgKeyInfo × List Char)
  | [] => none
  | c :: t =>
    match matchBlock (c :: t) with
    | some x => some x
    | none => searchBlock t

theorem searchBlock_length : ∀ (s : List Char) (i : GpgKeyInfo) (r : List Char),
    searchBlock s = some (i, r) → r.length < s.length := by
  intro s
  induction s with
  | nil => intro i r h; simp [searchBlock] at h
  | cons c t ih =>
    intro i r h
    simp only [searchBlock] at h
    cases hm : matchBlock (c :: t) with
    | some x =>
      rw [hm] at h
      obtain ⟨i2, r2⟩ := x
      have hlen := matchBlock_length (c :: t) i2 r2 hm
      have hx : r2 = r := by
        injection h with h2
        exact congrArg Prod.snd h2
      rw [hx] at hlen
      simpa using hlen
    | none =>
      rw [hm] at h
      exact Nat.lt_succ_of_lt (ih i r h)

/-- The `while (pattern.exec(rawText) !== null)` loop of `parseGpgKey`:
collect every successive sticky match in document order. -/
def parseLoop (s : List Char) : List GpgKeyInfo :=
  match h : searchBlock s with
  | none => []
  | some (i, r) => i :: parseLoop r
termination_by s.length
decreasing_by exact searchBlock_length s i r h

/-- `parseGpgKey` from the source: run the pattern repeatedly over the
raw `gpg --fingerprint --fingerprint --with-keygrip --with-colon`
output and collect the key records. -/
def parseGpgKey (rawText : String) : List GpgKeyInfo := parseLoop rawText.toList

/-! ### Behaviour of the matcher on well-formed listings -/

theorem takeWhile_append_eq (p : Char → Bool) (f r : List Char)
    (hf : ∀ c ∈ f, p c = true)
    (hr : ∀ c, r.head? = some c → p c = false) :
    (f ++ r).takeWhile p = f := by
  induction f with
  | nil =>
    simp only [List.nil_append]
    cases r with
    | nil => rfl
    | cons c t =>
      rw [List.takeWhile_cons, if_neg (by simp [hr c rfl])]
  | cons c f ih =>
    rw [List.cons_append, List.takeWhile_cons,
      if_pos (hf c (List.mem_cons_self c f)),
      ih (fun d hd => hf d (List.mem_cons_of_mem c hd))]

theorem dropWhile_append_eq (p : Char → Bool) (f r : List Char)
    (hf : ∀ c ∈ f, p c = true)
    (hr : ∀ c, r.head? = some c → p c = false) :
    (f ++ r).dropWhile p = r := by
  induction f with
  | nil =>
    simp only [List.nil_append]
    cases r with
    | nil => rfl
    | cons c t =>
      rw [List.dropWhile_cons, if_neg (by simp [hr c rfl])]
  | cons c f ih =>
    rw [List.cons_append, List.dropWhile_cons,
      if_pos (hf c (List.mem_cons_self c f)),
      ih (fun d hd => hf d (List.mem_cons_of_mem c hd))]

/-- A listing field never contains a colon (the field separator) nor a
line break. -/
def goodField (f : List Char) : Prop := ∀ c ∈ f, ¬ c = ':' ∧ ¬ c = '\n'

/-- A run of colon-terminated fields, as they appear on a listing line. -/
def fieldsText (fs : List (List Char)) : List Char :=
  (fs.map (fun f => f ++ [':'])).flatten

theorem skipField_field (f r : List Char) (hf : ∀ c ∈ f, ¬ c = ':') :
    skipField (f ++ ':' :: r) = some r := by
  have hd : (f ++ ':' :: r).dropWhile (fun c => !(c = ':')) = ':' :: r := by
    apply dropWhile_append_eq
    · intro c hc
      simp [hf c hc]
    · intro c hc
      simp only [List.head?] at hc
      injection hc with hc
      subst hc
      simp
  rw [skipField, hd, expectColon]
  simp

theorem skipFields_fields : ∀ (fs : List (List Char)) (r : List Char),
    (∀ f ∈ fs, goodField f) →
    skipFields fs.length (fieldsText fs ++ r) = some r := by
  intro fs
  induction fs with
  | nil => intro r hg; simp [fieldsText, skipFields]
  | cons f fs ih =>
    intro r hg
    have hshape : fieldsText (f :: fs) ++ r = f ++ ':' :: (fieldsText fs ++ r) := by
      simp [fieldsText]
    rw [List.length_cons, hshape]
    simp only [skipFields]
    rw [skipField_field f _ (fun c hc => ((hg f (List.mem_cons_self f fs)) c hc).1)]
    exact ih r (fun g hgm => hg g (List.mem_cons_of_mem f hgm))

theorem matchWordCapture_exact (w r : List Char) (hw : ∀ c ∈ w, isWordChar c = true) :
    matchWordCapture (w ++ ':' :: r) = some (w, r) := by
  have hcol : ∀ c : Char, (':' :: r : List Char).head? = some c → isWordChar c = false := by
    intro c hc
    simp only [List.head?] at hc
    injection hc with hc
    subst hc
    decide
  rw [matchWordCapture, dropWhile_append_eq _ _ _ hw hcol,
    takeWhile_append_eq _ _ _ hw hcol, expectColon]
  simp

theorem matchCaps_exact (caps wtail r : List Char)
    (hne : ¬ caps = [])
    (hcaps : ∀ c ∈ caps, isCapChar c = true)
    (hwt : ∀ c ∈ wtail, isWordChar c = true)
    (hwth : ∀ c, wtail.head? = some c → isCapChar c = false) :
    matchCaps (caps ++ (wtail ++ ':' :: r)) = some (caps, r) := by
  have hcolw : ∀ c : Char, (':' :: r : List Char).head? = some c → isWordChar c = false := by
    intro c hc
    simp only [List.head?] at hc
    injection hc with hc
    subst hc
    decide
  have hcapr : ∀ c : Char, (wtail ++ ':' :: r).head? = some c → isCapChar c = false := by
    intro c hc
    cases wtail with
    | nil =>
      simp only [List.nil_append, List.head?] at hc
      injection hc with hc
      subst hc
      decide
    | cons d t =>
      simp only [List.cons_append, List.head?] at hc
      injection hc with hc
      subst hc
      exact hwth _ rfl
  have htk : (caps ++ (wtail ++ ':' :: r)).takeWhile isCapChar = caps :=
    takeWhile_append_eq _ _ _ hcaps hcapr
  have hdr : (caps ++ (wtail ++ ':' :: r)).dropWhile isCapChar = wtail ++ ':' :: r :=
    dropWhile_append_eq _ _ _ hcaps hcapr
  rw [matchCaps, htk, hdr, dropWhile_append_eq _ _ _ hwt hcolw, expectColon]
  simp [hne, List.isEmpty_iff]

theorem lazyNL_done {α : Type} (k : List Char → Option α) (r : List Char) (v : α)
    (hk : k r = some v) : lazyNL k ('\n' :: r) = some v := by
  rw [lazyNL]
  simp [expectNL, hk]

theorem lazyNL_fields {α : Type} (k : List Char → Option α) :
    ∀ (fs : List (List Char)) (r : List Char) (v : α),
    (∀ f ∈ fs, goodField f) → k r = some v →
    lazyNL k (fieldsText fs ++ '\n' :: r) = some v := by
  intro fs
  induction fs with
  | nil =>
    intro r v hg hk
    simpa [fieldsText] using lazyNL_done k r v hk
  | cons f fs ih =>
    intro r v hg hk
    have hshape : fieldsText (f :: fs) ++ '\n' :: r =
        f ++ ':' :: (fieldsText fs ++ '\n' :: r) := by
      simp [fieldsText]
    rw [hshape]
    have hgf := hg f (List.mem_cons_self f fs)
    have ha : expectNL k (f ++ ':' :: (fieldsText fs ++ '\n' :: r)) = none := by
      cases f with
      | nil => simp [expectNL]
      | cons c t =>
        have hc := hgf c (List.mem_cons_self c t)
        simp [expectNL, hc.2]
    have hb : skipField (f ++ ':' :: (fieldsText fs ++ '\n' :: r)) =
        some (fieldsText fs ++ '\n' :: r) :=
      skipField_field f _ (fun c hc => (hgf c hc).1)
    rw [lazyNL, ha, hb]
    exact ih r v (fun g hgm => hg g (List.mem_cons_of_mem f hgm)) hk

theorem matchGrpTail_exact (skip3 : List (List Char)) (grp rest : List Char)
    (h8 : skip3.length = 8)
    (hg : ∀ f ∈ skip3, goodField f)
    (hgrp : ∀ c ∈ grp, isWordChar c = true) :
    matchGrpTail ('g' :: 'r' :: 'p' :: ':' :: (fieldsText skip3 ++ (grp ++ ':' :: rest))) =
      some (grp, rest) := by
  have hsf : skipFields 8 (fieldsText skip3 ++ (grp ++ ':' :: rest)) =
      some (grp ++ ':' :: rest) := by
    rw [← h8]
    exact skipFields_fields skip3 _ hg
  have hcond : ('g' : Char) = 'g' ∧ ('r' : Char) = 'r' ∧ ('p' : Char) = 'p' ∧ (':' : Char) = ':' :=
    ⟨rfl, rfl, rfl, rfl⟩
  simp only [matchGrpTail, if_pos hcond]
  rw [hsf, Option.some_bind]
  exact matchWordCapture_exact grp rest hgrp

theorem matchFprGrp_exact (skip2 trail2 : List (List Char)) (fpr : List Char)
    (gp : List Char) (grp rest : List Char)
    (h8 : skip2.length = 8)
    (hg2 : ∀ f ∈ skip2, goodField f)
    (hgt2 : ∀ f ∈ trail2, goodField f)
    (hfpr : ∀ c ∈ fpr, isWordChar c = true)
    (hgt : matchGrpTail gp = some (grp, rest)) :
    matchFprGrp ('f' :: 'p' :: 'r' :: ':' ::
        (fieldsText skip2 ++ (fpr ++ ':' :: (fieldsText trail2 ++ '\n' :: gp)))) =
      some ((fpr, grp), rest) := by
  have hsf : skipFields 8 (fieldsText skip2 ++ (fpr ++ ':' :: (fieldsText trail2 ++ '\n' :: gp))) =
      some (fpr ++ ':' :: (fieldsText trail2 ++ '\n' :: gp)) := by
    rw [← h8]
    exact skipFields_fields skip2 _ hg2
  have hwc : matchWordCapture (fpr ++ ':' :: (fieldsText trail2 ++ '\n' :: gp)) =
      some (fpr, fieldsText trail2 ++ '\n' :: gp) :=
    matchWordCapture_exact fpr _ hfpr
  have hlz : lazyNL (fun r3 => (matchGrpTail r3).map (fun q => ((fpr, q.1), q.2)))
      (fieldsText trail2 ++ '\n' :: gp) = some ((fpr, grp), rest) := by
    apply lazyNL_fields _ trail2 gp ((fpr, grp), rest) hgt2
    rw [hgt]
    rfl
  have hcond : ('f' : Char) = 'f' ∧ ('p' : Char) = 'p' ∧
      (('r' : Char) = 'r' ∨ ('r' : Char) = '2') ∧ (':' : Char) = ':' :=
    ⟨rfl, rfl, Or.inl rfl, rfl⟩
  simp only [matchFprGrp, if_pos hcond]
  rw [hsf, Option.some_bind, hwc, Option.some_bind]
  exact hlz

theorem matchBlock_exact (k1 k2 k3 : Char)
    (htag : (k1 = 'p' ∧ k2 = 'u' ∧ k3 = 'b') ∨ (k1 = 's' ∧ k2 = 'u' ∧ k3 = 'b'))
    (skip1 trail1 : List (List Char)) (caps wtail : List Char)
    (fp : List Char) (fpr grp rest : List Char)
    (h10 : skip1.length = 10)
    (hg1 : ∀ f ∈ skip1, goodField f)
    (hgt1 : ∀ f ∈ trail1, goodField f)
    (hne : ¬ caps = [])
    (hcaps : ∀ c ∈ caps, isCapChar c = true)
    (hwt : ∀ c ∈ wtail, isWordChar c = true)
    (hwth : ∀ c, wtail.head? = some c → isCapChar c = false)
    (hfp : matchFprGrp fp = some ((fpr, grp), rest)) :
    matchBlock (k1 :: k2 :: k3 :: ':' ::
        (fieldsText skip1 ++ (caps ++ (wtail ++ ':' :: (fieldsText trail1 ++ '\n' :: fp))))) =
      some ({ type := String.mk [k1, k2, k3],
              capabilities := String.mk caps,
              fingerprint := String.mk fpr,
              keygrip := String.mk grp }, rest) := by
  have hsf : skipFields 10
      (fieldsText skip1 ++ (caps ++ (wtail ++ ':' :: (fieldsText trail1 ++ '\n' :: fp)))) =
      some (caps ++ (wtail ++ ':' :: (fieldsText trail1 ++ '\n' :: fp))) := by
    rw [← h10]
    exact skipFields_fields skip1 _ hg1
  have hmc : matchCaps (caps ++ (wtail ++ ':' :: (fieldsText trail1 ++ '\n' :: fp))) =
      some (caps, fieldsText trail1 ++ '\n' :: fp) :=
    matchCaps_exact caps wtail _ hne hcaps hwt hwth
  have hlz : lazyNL (fun r3 =>
      (matchFprGrp r3).map (fun p =>
        (({ type := String.mk [k1, k2, k3],
            capabilities := String.mk caps,
            fingerprint := String.mk p.1.1,
            keygrip := String.mk p.1.2 } : GpgKeyInfo), p.2)))
      (fieldsText trail1 ++ '\n' :: fp) =
      some (({ type := String.mk [k1, k2, k3],
               capabilities := String.mk caps,
               fingerprint := String.mk fpr,
               keygrip := String.mk grp } : GpgKeyInfo), rest) := by
    apply lazyNL_fields _ trail1 fp _ hgt1
    rw [hfp]
    rfl
  have hcond : ((k1 = 'p' ∧ k2 = 'u' ∧ k3 = 'b') ∨ (k1 = 's' ∧ k2 = 'u' ∧ k3 = 'b')) ∧
      (':' : Char) = ':' := ⟨htag, rfl⟩
  rw [matchBlock, if_pos hcond, hsf]
  simp only [Option.some_bind]
  rw [hmc]
  simp only [Option.some_bind]
  exact hlz

theorem matchBlock_nl (t : List Char) : matchBlock ('\n' :: t) = none := by
  match t with
  | [] => rfl
  | [a] => rfl
  | [a, b] => rfl
  | a :: b :: c :: t2 =>
    have hc : ¬ ((('\n' = 'p' ∧ a = 'u' ∧ b = 'b') ∨ ('\n' = 's' ∧ a = 'u' ∧ b = 'b')) ∧
        c = ':') := by
      rintro ⟨h1 | h1, -⟩ <;> simp at h1
    rw [matchBlock, if_neg hc]

theorem searchBlock_of_match (s : List Char) (x : GpgKeyInfo × List Char)
    (hm : matchBlock s = some x) : searchBlock s = some x := by
  cases s with
  | nil => exact absurd hm (by simp [matchBlock])
  | cons c t => rw [searchBlock, hm]

theorem searchBlock_skip (c : Char) (t : List Char)
    (hm : matchBlock (c :: t) = none) : searchBlock (c :: t) = searchBlock t := by
  rw [searchBlock, hm]

theorem parseLoop_some (s : List Char) (i : GpgKeyInfo) (r : List Char)
    (h : searchBlock s = some (i, r)) : parseLoop s = i :: parseLoop r := by
  rw [parseLoop, h]

theorem parseLoop_none (s : List Char) (h : searchBlock s = none) : parseLoop s = [] := by
  rw [parseLoop, h]

/-- One well-formed block of a key listing, as the claim describes it: a
`pub` or `sub` record line (tag, ten skipped fields, the capability
field, trailing fields), its fingerprint line and its keygrip line.
`capsTail` is the upper-case remainder of the capability field that the
capture does not keep (for example the `ESCA` of `scESCA`). -/
structure GpgBlock where
  tag : List Char
  skip1 : List (List Char)
  caps : List Char
  capsTail : List Char
  trail1 : List (List Char)
  skip2 : List (List Char)
  fpr : List Char
  trail2 : List (List Char)
  skip3 : List (List Char)
  grp : List Char

/-- The text of a block followed by `next` (the rest of the listing). -/
def renderBlockC (b : GpgBlock) (next : List Char) : List Char :=
  b.tag ++ ':' ::
    (fieldsText b.skip1 ++ (b.caps ++ (b.capsTail ++ ':' ::
      (fieldsText b.trail1 ++ '\n' ::
        ('f' :: 'p' :: 'r' :: ':' ::
          (fieldsText b.skip2 ++ (b.fpr ++ ':' ::
            (fieldsText b.trail2 ++ '\n' ::
              ('g' :: 'r' :: 'p' :: ':' ::
                (fieldsText b.skip3 ++ (b.grp ++ ':' :: '\n' :: next)))))))))))

/-- Well-formedness of a block: the gpg field counts (ten fields before
the capability field, eight before the fingerprint and keygrip), fields
free of colons and line breaks, a nonempty capability capture over
`[escaD?]`, and word-character fingerprint and keygrip values. -/
def WFBlock (b : GpgBlock) : Prop :=
  b.skip1.length = 10 ∧ b.skip2.length = 8 ∧ b.skip3.length = 8 ∧
  (∀ f ∈ b.skip1, goodField f) ∧ (∀ f ∈ b.trail1, goodField f) ∧
  (∀ f ∈ b.skip2, goodField f) ∧ (∀ f ∈ b.trail2, goodField f) ∧
  (∀ f ∈ b.skip3, goodField f) ∧
  ¬ b.caps = [] ∧ (∀ c ∈ b.caps, isCapChar c = true) ∧
  (∀ c ∈ b.capsTail, isWordChar c = true) ∧
  isCapChar (b.capsTail.headD ':') = false ∧
  (∀ c ∈ b.fpr, isWordChar c = true) ∧ (∀ c ∈ b.grp, isWordChar c = true)

instance (b : GpgBlock) : Decidable (WFBlock b) := by
  unfold WFBlock goodField
  infer_instance

/-- The record the source's regex produces for a block. -/
def toInfo (b : GpgBlock) : GpgKeyInfo :=
  { type := String.mk b.tag, capabilities := String.mk b.caps,
    fingerprint := String.mk b.fpr, keygrip := String.mk b.grp }

theorem matchBlock_render (b : GpgBlock) (next : List Char)
    (htag : b.tag = ['p', 'u', 'b'] ∨ b.tag = ['s', 'u', 'b'])
    (hwf : WFBlock b) :
    matchBlock (renderBlockC b next) = some (toInfo b, '\n' :: next) := by
  obtain ⟨h10, h8a, h8b, hg1, hgt1, hg2, hgt2, hg3, hne, hcaps, hwt, hwth, hfpr, hgrp⟩ := hwf
  have hwth2 : ∀ c, b.capsTail.head? = some c → isCapChar c = false := by
    intro c hc
    cases he : b.capsTail with
    | nil => rw [he] at hc; exact absurd hc (by simp)
    | cons d t =>
      rw [he] at hc
      simp only [List.head?] at hc
      injection hc with hc
      subst hc
      rw [he] at hwth
      simpa using hwth
  have hgt : matchGrpTail ('g' :: 'r' :: 'p' :: ':' ::
      (fieldsText b.skip3 ++ (b.grp ++ ':' :: '\n' :: next))) = some (b.grp, '\n' :: next) :=
    matchGrpTail_exact b.skip3 b.grp ('\n' :: next) h8b hg3 hgrp
  have hfp := matchFprGrp_exact b.skip2 b.trail2 b.fpr _ b.grp ('\n' :: next)
    h8a hg2 hgt2 hfpr hgt
  rcases htag with h | h
  · have hmb := matchBlock_exact 'p' 'u' 'b' (Or.inl ⟨rfl, rfl, rfl⟩)
      b.skip1 b.trail1 b.caps b.capsTail _ b.fpr b.grp ('\n' :: next)
      h10 hg1 hgt1 hne hcaps hwt hwth2 hfp
    simp only [renderBlockC, toInfo, h]
    exact hmb
  · have hmb := matchBlock_exact 's' 'u' 'b' (Or.inr ⟨rfl, rfl, rfl⟩)
      b.skip1 b.trail1 b.caps b.capsTail _ b.fpr b.grp ('\n' :: next)
      h10 hg1 hgt1 hne hcaps hwt hwth2 hfp
    simp only [renderBlockC, toInfo, h]
    exact hmb

/-- Claim C7: for every key-listing text consisting of two well-formed
blocks — a primary `pub` block followed by a subordinate `sub` block,
each with its own fingerprint and keygrip lines — `parseGpgKey` returns
exactly two key records in document order, each pairing the fingerprint
and keygrip taken from its own block. -/
theorem c7_two_block_listing (b1 b2 : GpgBlock)
    (h1 : WFBlock b1) (h2 : WFBlock b2)
    (ht1 : b1.tag = ['p', 'u', 'b']) (ht2 : b2.tag = ['s', 'u', 'b']) :
    parseGpgKey (String.mk (renderBlockC b1 (renderBlockC b2 []))) =
      [toInfo b1, toInfo b2] := by
  have hm1 := matchBlock_render b1 (renderBlockC b2 []) (Or.inl ht1) h1
  have hm2 := matchBlock_render b2 [] (Or.inr ht2) h2
  have htl : (String.mk (renderBlockC b1 (renderBlockC b2 []))).toList =
      renderBlockC b1 (renderBlockC b2 []) := rfl
  rw [parseGpgKey, htl]
  rw [parseLoop_some _ _ _ (searchBlock_of_match _ _ hm1)]
  have hs2 : searchBlock ('\n' :: renderBlockC b2 []) = some (toInfo b2, ['\n']) := by
    rw [searchBlock_skip _ _ (matchBlock_nl _)]
    exact searchBlock_of_match _ _ hm2
  rw [parseLoop_some _ _ _ hs2]
  have hend : searchBlock (['\n'] : List Char) = none := by
    rw [searchBlock_skip '\n' [] (matchBlock_nl [])]
    rfl
  rw [parseLoop_none _ hend]

/-- A sample primary-key block with realistic gpg field contents. -/
def c7SampleBlock1 : GpgBlock :=
  { tag := ['p', 'u', 'b'],
    skip1 := ["u".toList, "255".toList, "22".toList, "94B5D2E5BF1B2B4C".toList,
              "1651271719".toList, [], [], [], [], []],
    caps := ['s', 'c'],
    capsTail := "ESCA".toList,
    trail1 := [[], [], [], [], [], "ed25519".toList, [], [], ['0']],
    skip2 := [[], [], [], [], [], [], [], []],
    fpr := "94B5D2E54A4AAF44BF1B2B4C94B5D2E5BF1B2B4C".toList,
    trail2 := [],
    skip3 := [[], [], [], [], [], [], [], []],
    grp := "CB18328AD05158F97CC8F33682F7AD291F52CB08".toList }

/-- A sample subordinate-key block with realistic gpg field contents. -/
def c7SampleBlock2 : GpgBlock :=
  { tag := ['s', 'u', 'b'],
    skip1 := ["u".toList, "255".toList, "18".toList, "6E88F267A3FBCFF0".toList,
              "1651271719".toList, [], [], [], [], []],
    caps := ['e'],
    capsTail := [],
    trail1 := [[], [], [], [], [], "cv25519".toList, [], [], []],
    skip2 := [[], [], [], [], [], [], [], []],
    fpr := "6E88F267AABBCCDD11223344556677886E88F267".toList,
    trail2 := [],
    skip3 := [[], [], [], [], [], [], [], []],
    grp := "FFEE328AD05158F97CC8F33682F7AD291F52AABB".toList }

/-- Claim C7 witness: the two sample blocks form a concrete two-block
listing on which `parseGpgKey` yields exactly the two records in
document order with correctly paired fingerprints and keygrips. -/
theorem c7_two_block_witness :
    parseGpgKey (String.mk (renderBlockC c7SampleBlock1 (renderBlockC c7SampleBlock2 []))) =
      [toInfo c7SampleBlock1, toInfo c7SampleBlock2] :=
  c7_two_block_listing c7SampleBlock1 c7SampleBlock2 (by decide) (by decide) rfl rfl

/-! ## Key resolution: `getKeyInfo` (from src) -/

inductive GpgError where
  | parseError
  | keyNotFound
  | commandFailed (message : String)
  deriving DecidableEq

/-- JavaScript `String.includes` on character lists: the needle occurs
somewhere in the haystack. -/
def listIncludes (sub : List Char) : List Char → Bool
  | [] => sub.isPrefixOf []
  | c :: t => sub.isPrefixOf (c :: t) || listIncludes sub t

/-- `fingerprint.includes(keyId)` from the source. -/
def jsIncludes (s sub : String) : Bool := listIncludes sub.toList s.toList

theorem listIncludes_iff_infix (sub : List Char) :
    ∀ s : List Char, listIncludes sub s = true ↔ sub <:+: s := by
  intro s
  induction s with
  | nil =>
    simp only [listIncludes, List.isPrefixOf_iff_prefix, List.infix_nil, List.prefix_nil]
  | cons c t ih =>
    simp only [listIncludes, Bool.or_eq_true, List.isPrefixOf_iff_prefix, ih,
      List.infix_cons_iff]

/-- The resolution loop of `getKeyInfo` from the source: scan the parsed
records in document order and return the first whose fingerprint
contains the requested identifier; the trailing `throw` becomes
`KeyNotFound`.  (The surrounding process spawn and `parseGpgKey` call
produce `infos`.) -/
def getKeyInfo (infos : List GpgKeyInfo) (keyId : String) : Except GpgError GpgKeyInfo :=
  match infos with
  | [] => Except.error GpgError.keyNotFound
  | info :: rest =>
    if jsIncludes info.fingerprint keyId then Except.ok info
    else getKeyInfo rest keyId

/-- Claim C8: resolution returns the first record in document order whose
fingerprint contains the identifier (`List.find?` order), failing with
`KeyNotFound` when none does; and "contains" is exact case-sensitive
substring containment of the identifier in the fingerprint. -/
theorem c8_resolve_first_substring_match (infos : List GpgKeyInfo) (keyId : String) :
    getKeyInfo infos keyId =
      (match infos.find? (fun i => jsIncludes i.fingerprint keyId) with
       | some i => Except.ok i
       | none => Except.error GpgError.keyNotFound) ∧
    (∀ s sub : String, jsIncludes s sub = true ↔ sub.toList <:+: s.toList) := by
  constructor
  · induction infos with
    | nil => rfl
    | cons info rest ih =>
      by_cases h : jsIncludes info.fingerprint keyId
      · simp [getKeyInfo, List.find?, h]
      · simp only [getKeyInfo, Bool.not_eq_true] at h ⊢
        rw [List.find?]
        simp only [h]
        rw [if_neg (by simp [h])]
        exact ih
  · intro s sub
    exact listIncludes_iff_infix sub.toList s.toList

/-! ## Status query: `isKeyUnlocked` (from src) -/

/-- JavaScript `String.split` with a one-character separator: keeps empty
pieces, yields `[""]` on the empty string. -/
def splitChar (sep : Char) : List Char → List (List Char)
  | [] => [[]]
  | c :: t =>
    if c = sep then [] :: splitChar sep t
    else match splitChar sep t with
      | h :: t2 => (c :: h) :: t2
      | [] => [[c]]

theorem splitChar_ne_nil (sep : Char) : ∀ l : List Char, ¬ splitChar sep l = [] := by
  intro l
  induction l with
  | nil => simp [splitChar]
  | cons c t ih =>
    simp only [splitChar]
    by_cases hc : c = sep
    · simp [hc]
    · rw [if_neg hc]
      cases hs : splitChar sep t with
      | nil => exact absurd hs ih
      | cons h t2 => simp

/-- `isKeyUnlocked`'s output parsing, from the source: split the command
output into lines; a single line means the command failed and its text is
the error; otherwise parse the first line as the status line: exactly 11
space-separated tokens or `ParseError`, unlocked iff token index 6 is
`1`. -/
def isKeyUnlocked (outputs : List Char) : Except GpgError Bool :=
  match splitChar '\n' outputs with
  | [] => Except.error GpgError.parseError
  | [single] => Except.error (GpgError.commandFailed (String.mk single))
  | line :: _ :: _ =>
    if (splitChar ' ' line).length = 11 then
      Except.ok (decide ((splitChar ' ' line).getD 6 [] = ['1']))
    else Except.error GpgError.parseError

theorem splitChar_append_sep (sep : Char) :
    ∀ line rest : List Char, sep ∉ line →
    splitChar sep (line ++ sep :: rest) = line :: splitChar sep rest := by
  intro line
  induction line with
  | nil =>
    intro rest hmem
    simp [splitChar]
  | cons c t ih =>
    intro rest hmem
    have hc : ¬ c = sep := fun hc => hmem (hc ▸ List.mem_cons_self c t)
    rw [List.cons_append]
    simp only [splitChar, if_neg hc]
    rw [ih rest (fun hm => hmem (List.mem_cons_of_mem c hm))]

/-- Claim C9: for every status line (the first output line), if its
space-separated token count is not 11 the query fails with `ParseError`;
with exactly 11 tokens it reports unlocked exactly when the token at
index 6 is the string `1`. -/
theorem c9_status_line_tokens (line rest : List Char) (hnl : '\n' ∉ line) :
    isKeyUnlocked (line ++ '\n' :: rest) =
      (if (splitChar ' ' line).length = 11 then
        Except.ok (decide ((splitChar ' ' line).getD 6 [] = ['1']))
      else Except.error GpgError.parseError) := by
  rw [isKeyUnlocked, splitChar_append_sep '\n' line rest hnl]
  cases hs : splitChar '\n' rest with
  | nil => exact absurd hs (splitChar_ne_nil '\n' rest)
  | cons h t2 => rfl

/-- The sample status line from the source's own comment. -/
def c9SampleLine : List Char :=
  "S KEYINFO CB18328AD05158F97CC8F33682F7AD291F52CB08 D - - - P - - -".toList

/-- Claim C9 witness: the source's sample status line has 11 tokens and
token index 6 is `P`, so the key is reported locked; and an 8-token line
fails with `ParseError`. -/
theorem c9_status_line_witness :
    isKeyUnlocked (c9SampleLine ++ '\n' :: "OK".toList) = Except.ok false ∧
    isKeyUnlocked ("S KEYINFO ABC D - - -".toList ++ '\n' :: "OK".toList) =
      Except.error GpgError.parseError := by
  constructor
  · rw [c9_status_line_tokens c9SampleLine "OK".toList (by decide)]
    rfl
  · rw [c9_status_line_tokens "S KEYINFO ABC D - - -".toList "OK".toList (by decide)]
    rfl

/-! ## `KeyStatusManager.unlockCurrentKey` (from src/src/extension.ts) -/

/-- The gpg operations `unlockCurrentKey` can trigger, in order: the
one-shot status query (`isKeyUnlocked`) and the unlock handshake
(`unlockByKey`, which opens a session and transmits the passphrase). -/
inductive GpgEffect where
  | statusQuery (keygrip : String)
  | unlockKey (keygrip : String) (passphrase : String)
  deriving DecidableEq

/-- The fields of `KeyStatusManager` that `unlockCurrentKey` reads. -/
structure ManagerState where
  activateFolder : Option String
  keyOfFolders : List (String × GpgKeyInfo)

/-- `this.#keyOfFolders.get(folder)`. -/
def lookupFolder (m : List (String × GpgKeyInfo)) (f : String) : Option GpgKeyInfo :=
  (m.find? (fun p => p.1 == f)).map Prod.snd

/-- The gpg calls `syncStatus` makes, from the source: nothing without an
active folder or a key for it; otherwise one status query for the key's
keygrip (its result only updates the status-bar event). -/
def syncStatusEffects (st : ManagerState) : List GpgEffect :=
  match st.activateFolder with
  | none => []
  | some f =>
    match lookupFolder st.keyOfFolders f with
    | none => []
    | some key => [GpgEffect.statusQuery key.keygrip]

/-- `KeyStatusManager.unlockCurrentKey` from the source: guard the active
folder and its key, `syncStatus`, then query the key's state directly; if
already unlocked, log and return without unlocking; otherwise run
`unlockByKey` (the signing handshake) with the passphrase and sync again.
`isUnlocked` stands for the value the status query reports. -/
def unlockCurrentKey (st : ManagerState) (isUnlocked : String → Bool)
    (passphrase : String) : Except String Unit × List GpgEffect :=
  match st.activateFolder with
  | none => (Except.error "No active folder", [])
  | some f =>
    match lookupFolder st.keyOfFolders f with
    | none => (Except.error "No key for current folder", [])
    | some theKey =>
      if isUnlocked theKey.keygrip then
        (Except.ok (), syncStatusEffects st ++ [GpgEffect.statusQuery theKey.keygrip])
      else
        (Except.ok (), syncStatusEffects st ++
          [GpgEffect.statusQuery theKey.keygrip,
           GpgEffect.unlockKey theKey.keygrip passphrase] ++ syncStatusEffects st)

/-- Claim C10: with an active folder and a key for it, when the status
query reports the key already unlocked, `unlockCurrentKey` returns
successfully and its gpg calls are status queries only — no unlock
handshake runs, so no session is opened and the passphrase is never
transmitted; when the key is reported locked, exactly one unlock
handshake runs, after the status checks. -/
theorem c10_skip_unlock_when_unlocked (st : ManagerState) (isUnlocked : String → Bool)
    (passphrase : String) (f : String) (key : GpgKeyInfo)
    (hf : st.activateFolder = some f)
    (hk : lookupFolder st.keyOfFolders f = some key) :
    (unlockCurrentKey st isUnlocked passphrase).1 = Except.ok () ∧
    (unlockCurrentKey st isUnlocked passphrase).2 =
      (if isUnlocked key.keygrip then
        [GpgEffect.statusQuery key.keygrip, GpgEffect.statusQuery key.keygrip]
      else
        [GpgEffect.statusQuery key.keygrip, GpgEffect.statusQuery key.keygrip,
         GpgEffect.unlockKey key.keygrip passphrase,
         GpgEffect.statusQuery key.keygrip]) := by
  have hsync : syncStatusEffects st = [GpgEffect.statusQuery key.keygrip] := by
    simp only [syncStatusEffects, hf, hk]
  by_cases hu : isUnlocked key.keygrip
  · simp only [unlockCurrentKey, hf, hk, hsync, if_pos hu]
    exact ⟨trivial, rfl⟩
  · simp only [unlockCurrentKey, hf, hk, hsync, if_neg hu]
    exact ⟨trivial, rfl⟩

/-- Claim C10 witness: a concrete manager state with one folder whose key
is reported unlocked: the run succeeds with two status queries and no
unlock call; the same state with the key reported locked runs the unlock
once. -/
theorem c10_skip_unlock_witness :
    (unlockCurrentKey
        { activateFolder := some "/w",
          keyOfFolders := [("/w",
            { type := "pub", capabilities := "sc", fingerprint := "AB12", keygrip := "G1" })] }
        (fun _ => true) "pw").1 = Except.ok () ∧
    (unlockCurrentKey
        { activateFolder := some "/w",
          keyOfFolders := [("/w",
            { type := "pub", capabilities := "sc", fingerprint := "AB12", keygrip := "G1" })] }
        (fun _ => true) "pw").2 =
      (if (fun _ => true : String → Bool) "G1" then
        [GpgEffect.statusQuery "G1", GpgEffect.statusQuery "G1"]
      else
        [GpgEffect.statusQuery "G1", GpgEffect.statusQuery "G1",
         GpgEffect.unlockKey "G1" "pw", GpgEffect.statusQuery "G1"]) :=
  c10_skip_unlock_when_unlocked
    { activateFolder := some "/w",
      keyOfFolders := [("/w",
        { type := "pub", capabilities := "sc", fingerprint := "AB12", keygrip := "G1" })] }
    (fun _ => true) "pw" "/w"
    { type := "pub", capabilities := "sc", fingerprint := "AB12", keygrip := "G1" }
    rfl rfl

end GpgIndicator
